import Mathlib

/-!
Formal model of the praxis quantization/sparsity subsystem
(`praxis/layers/quantization/sparsity/sparsity.py`,
`praxis/layers/quantization/sparsity/sparsity_hparams.py`,
`praxis/layers/quantization/linears.py`).

Tensors are modelled as flat row-major lists of rational values together
with their (explicitly passed) dimensions.  Fallible python code
(assertions, `ValueError`, `ZeroDivisionError`) is modelled with
`Except String`.
-/

set_option maxHeartbeats 1000000

namespace Praxis

/-! ## Sparsity mask engine: `sparsity.py` -/

/-- `apply_sparsity(inputs, mask) = jnp.where(mask, inputs, zeros)`:
elementwise select, zero where the mask is `false`. -/
def apply_sparsity (inputs : List ℚ) (mask : List Bool) : List ℚ :=
  List.zipWith (fun mk x => if mk then x else 0) mask inputs

/-- Semantics of the `jax.lax.top_k` selection used by `get_sparsity_mask`:
position `i` of the score list `xs` beats position `j` when its value is
strictly larger, or the values are equal and `i` is the lower index
(`top_k` is deterministic and breaks ties towards the lower index). -/
def beats (xs : List ℚ) (i j : Nat) : Prop :=
  xs.getD j 0 < xs.getD i 0 ∨ (xs.getD i 0 = xs.getD j 0 ∧ i < j)

instance (xs : List ℚ) (i j : Nat) : Decidable (beats xs i j) :=
  inferInstanceAs (Decidable (_ ∨ _))

/-- Number of positions of `xs` that beat position `i`. -/
def rankOf (xs : List ℚ) (i : Nat) : Nat :=
  ((List.range xs.length).filter (fun j => decide (beats xs j i))).length

/-- The set of positions of `xs` that beat position `i` (the `rankOf`
count, as a finite set). -/
def beatSet (xs : List ℚ) (i : Nat) : Finset Nat :=
  (Finset.range xs.length).filter (fun j => beats xs j i)

/-- Boolean keep-mask of one group: `jnp.any(one_hot(top_k_indices), axis=-2)`.
Position `i` is kept exactly when it is among the `k` best positions of the
group, i.e. when fewer than `k` positions beat it. -/
def topk_mask (xs : List ℚ) (k : Nat) : List Bool :=
  (List.range xs.length).map (fun i => decide (rankOf xs i < k))

/-- `inputs.reshape(group, m, order=C)` (row-major): the list of the
`d.length / m` contiguous groups of `m` elements of the flat data `d`. -/
def groupsOf (d : List ℚ) (m : Nat) : List (List ℚ) :=
  (List.range (d.length / m)).map (fun g => (d.drop (g * m)).take m)

/-- Per-group top-k masking of a flat (already reshaped) score list,
reshaped back to flat row-major form. -/
def nm_mask_flat (d : List ℚ) (n m : Nat) : List Bool :=
  ((groupsOf d m).map (fun g => topk_mask g n)).flatten

/-- `jnp.einsum(...ij->...ji)` on a `rows × cols` row-major flat tensor:
the `cols × rows` row-major flat transpose. -/
def transposeFlat {α : Type} [Inhabited α] (rows cols : Nat) (d : List α) :
    List α :=
  (List.range (cols * rows)).map
    (fun i => d.getD ((i % rows) * cols + i / rows) default)

/-- `get_sparsity_mask(inputs, n_sparsity, m_sparsity, order)` on a
`rows × cols` matrix given as a row-major flat list.  Mirrors the source:
assert `n <= m`; fail when the element count is not divisible by `m`
(python raises `ZeroDivisionError` when `m = 0`); fail on an unsupported
order; take absolute values; for order R group the row-major flattening, for
order C transpose, group, and transpose the mask back. -/
def get_sparsity_mask (rows cols : Nat) (n_sparsity m_sparsity : Nat)
    (order : String) (d : List ℚ) : Except String (List Bool) :=
  if ¬ n_sparsity ≤ m_sparsity then
    .error ("N must be lower than M for N:M sparsity.")
  else if m_sparsity = 0 then
    .error ("ZeroDivisionError")
  else if d.length % m_sparsity ≠ 0 then
    .error ("inputs size must be divisible by m")
  else if order ≠ "C" ∧ order ≠ "R" then
    .error ("Index order not supported.")
  else
    let a := d.map (fun x => |x|)
    if order = "R" then
      .ok (nm_mask_flat a n_sparsity m_sparsity)
    else
      .ok (transposeFlat cols rows
        (nm_mask_flat (transposeFlat rows cols a) n_sparsity m_sparsity))

/-- Specification helper: the order-flattened view of a `rows × cols`
row-major tensor, i.e. the sequence whose contiguous groups of `m` elements
are the N:M groups "along the chosen order": the identity for order R, the
transpose for order C. -/
def orderSeq {α : Type} [Inhabited α] (order : String) (rows cols : Nat)
    (x : List α) : List α :=
  if order = "R" then x else transposeFlat rows cols x

/-- The zeroing step of `get_sparsity_mask_unstructured`:
`if mask is not None: inputs = apply_sparsity(inputs, mask)`. -/
def zeroed (inputs : List ℚ) (mask : Option (List Bool)) : List ℚ :=
  match mask with
  | some mk => apply_sparsity inputs mk
  | none => inputs

/-- `jnp.percentile(xs, q)` with the default linear interpolation method:
for the ascending sort `s` of `xs` and virtual index
`p = q * (len - 1) / 100`, linearly interpolate between `s[⌊p⌋]` and the
next element. -/
def percentile (xs : List ℚ) (q : ℚ) : ℚ :=
  let s := xs.mergeSort (fun a b => decide (a ≤ b))
  let p := q * ((s.length : ℚ) - 1) / 100
  let i := (⌊p⌋).toNat
  let j := min (i + 1) (s.length - 1)
  s.getD i 0 + (p - (i : ℚ)) * (s.getD j 0 - s.getD i 0)

/-- `get_sparsity_mask_unstructured(inputs, mask, prune_rate)`: zero out the
already-pruned positions when a current mask is given, then keep exactly the
positions whose absolute value is strictly greater than the
`prune_rate`-th percentile of the absolute values. -/
def get_sparsity_mask_unstructured (inputs : List ℚ)
    (mask : Option (List Bool)) (prune_rate : ℚ) : List Bool :=
  let inputs_zeroed := zeroed inputs mask
  let inputs_abs := inputs_zeroed.map (fun x => |x|)
  let threshold := percentile inputs_abs prune_rate
  inputs_abs.map (fun a => decide (threshold < a))

/-! ## Importance scores: `sparsity.py` (`compute_score` and friends),
enums from `sparsity_hparams.py`. -/

/-- `SparsityScore` enum. -/
inductive SparsityScore
  | magnitude
  | activation_weighted
deriving DecidableEq

/-- An n-dimensional tensor: a shape together with the row-major flat data. -/
structure Tensor where
  shape : List Nat
  data : List ℚ
deriving DecidableEq

/-- `score_weight_magnitude(weight) = jnp.abs(weight)`. -/
def score_weight_magnitude (weight : Tensor) : Tensor :=
  ⟨weight.shape, weight.data.map (fun x => |x|)⟩

/-- `score_activation_weighted(weight, inputs)`: requires a 2-D weight of
shape `[C_in, C_out]` and an activation whose last axis is `C_in`, else a
`ValueError`; otherwise the score is
`jnp.einsum(...j,jk->jk, |inputs|, |weight|)`, i.e. entry `(j, k)` is the
sum over all leading positions `t` of `|inputs[t, j]|`, times
`|weight[j, k]|`.  The result is stored row-major with index
`idx = j * C_out + k`. -/
def score_activation_weighted (weight inputs : Tensor) :
    Except String Tensor :=
  if weight.shape.length = 2 ∧
      inputs.shape.getD (inputs.shape.length - 1) 0 = weight.shape.getD 0 0
  then
    let cin := weight.shape.getD 0 0
    let cout := weight.shape.getD 1 0
    let batch := inputs.data.length / cin
    .ok ⟨weight.shape,
      (List.range (cin * cout)).map (fun idx =>
        (((List.range batch).map
            (fun t => |inputs.data.getD (t * cin + idx / cout) 0|)).sum) *
          |weight.data.getD idx 0|)⟩
  else
    .error ("ACTIVATION_WEIGHTED score function only supports Linear layers for now.")

/-- `compute_score(weights, score_func, inputs)`. -/
def compute_score (weights : Tensor) (score_func : SparsityScore)
    (inputs : Option Tensor) : Except String Tensor :=
  match score_func with
  | .activation_weighted =>
    match inputs with
    | none => .error ("inputs must be given for ACTIVATION_WEIGHTED.")
    | some x => score_activation_weighted weights x
  | .magnitude => .ok (score_weight_magnitude weights)

/-! ## Hyper-parameter validation: `sparsity_hparams.py`. -/

/-- `SparsityType` enum. -/
inductive SparsityType
  | structured_nm
  | unstructured
  | channelwise_pruning
deriving DecidableEq

/-- The python type of a non-`None` `prune_rate`: a float (percentage) or a
pair of ints (N:M). -/
inductive PruneRate
  | floatRate (r : ℚ)
  | tupleRate (n m : Int)
deriving DecidableEq

/-- `isinstance(prune_rate, tuple)`. -/
def PruneRate.isTuple : PruneRate → Bool
  | .tupleRate _ _ => true
  | .floatRate _ => false

/-- `isinstance(prune_rate, float)`. -/
def PruneRate.isFloat : PruneRate → Bool
  | .floatRate _ => true
  | .tupleRate _ _ => false

/-- `WeightSparsityParams` dataclass fields. -/
structure WeightSparsityParams where
  prune_rate : Option PruneRate
  structure_decay : Bool := false
  mask_decay_weight : ℚ := 0
  sparse_ste : Bool := false
  sparse_ste_weight : ℚ := 2 / 10000
deriving DecidableEq

/-- `WeightSparsityParams.__post_init__`: the validation run at
construction (python assertions and `ValueError`s are both failures). -/
def WeightSparsityParams.post_init (p : WeightSparsityParams) :
    Except String Unit :=
  if ¬ 0 ≤ p.mask_decay_weight then
    .error ("mask_decay_weight must be positive.")
  else if ¬ 0 ≤ p.sparse_ste_weight then
    .error ("sparse_ste_weight must be positive.")
  else if p.sparse_ste then
    if p.mask_decay_weight ≠ 0 then
      .error ("SR-STE only works with non-decaying mask.")
    else if p.structure_decay then
      .error ("SR-STE only works with non-decaying sparse structure.")
    else .ok ()
  else .ok ()

/-- `SparsityHParams` dataclass (only the fields its validation reads). -/
structure SparsityHParams where
  sparsity_type : SparsityType := .structured_nm
  weight_params : Option WeightSparsityParams := none
  order : String := "R"
deriving DecidableEq

/-- The sparsity-type dispatch of `SparsityHParams.__post_init__`: the
prune-rate type must match the sparsity type, and SR-STE requires
structured sparsity. -/
def SparsityHParams.type_check (h : SparsityHParams)
    (wp : WeightSparsityParams) : Except String Unit :=
  match h.sparsity_type with
  | .structured_nm =>
    match wp.prune_rate with
    | some pr =>
      if ¬ pr.isTuple then
        .error ("Prune rate must be either None for no pruning or a Tuple for N:M structured sparsity.")
      else .ok ()
    | none => .ok ()
  | .unstructured =>
    match wp.prune_rate with
    | some pr =>
      if ¬ pr.isFloat then
        .error ("Prune rate must be either None or float for unstructured sparsity.")
      else if wp.sparse_ste then
        .error ("SR-STE only works with structured sparsity.")
      else .ok ()
    | none =>
      if wp.sparse_ste then
        .error ("SR-STE only works with structured sparsity.")
      else .ok ()
  | .channelwise_pruning =>
    match wp.prune_rate with
    | some pr =>
      if ¬ pr.isFloat then
        .error ("Prune rate must be either None or float for unstructured sparsity.")
      else if wp.sparse_ste then
        .error ("SR-STE only works with structured sparsity.")
      else .ok ()
    | none =>
      if wp.sparse_ste then
        .error ("SR-STE only works with structured sparsity.")
      else .ok ()

/-- `SparsityHParams.__post_init__`: validation run at construction.  All
checks are guarded by `weight_params is not None`; after the type checks
the index order must be `C` or `R`. -/
def SparsityHParams.post_init (h : SparsityHParams) : Except String Unit :=
  match h.weight_params with
  | none => .ok ()
  | some wp =>
    match h.type_check wp with
    | .error e => .error e
    | .ok _ =>
      if h.order ≠ "C" ∧ h.order ≠ "R" then
        .error ("Index order not supported.")
      else .ok ()

/-! ## Quantized linear layer: `linears.py`. -/

/-- `Linear._get_sub_channel_shape(shape, block_size, contract_dim)`:
`divmod` the contract dimension (python raises `ZeroDivisionError` when
`block_size = 0`), fail when the remainder is nonzero, otherwise insert the
number of sub-channels before `contract_dim` and overwrite the entry after
it with `block_size`. -/
def get_sub_channel_shape (shape : List Nat) (block_size : Nat)
    (contract_dim : Nat) : Except String (List Nat) :=
  if block_size = 0 then .error ("ZeroDivisionError")
  else
    let sub_channels := shape.getD contract_dim 0 / block_size
    let rem := shape.getD contract_dim 0 % block_size
    if rem ≠ 0 then
      .error ("block_size must fully divide the contract dimension")
    else
      .ok ((shape.insertIdx contract_dim sub_channels).set
        (contract_dim + 1) block_size)

/-- The quantization weight parameters read by `linears.py`. -/
structure QuantWeightParams where
  block_size : Nat := 0
  use_symmetric : Bool := true
deriving DecidableEq

/-- The quantization configuration read by `quantized_partition_specs`. -/
structure Quantization where
  weight_params : Option QuantWeightParams := some {}
deriving DecidableEq

/-- `base_layer.WeightHParams`: shape, mesh shape and sharding assignment of
a stored parameter. -/
structure WeightHParams where
  shape : List Nat
  mesh_shape : Option (List Nat)
  tensor_split_dims_mapping : Option (List Int)
deriving DecidableEq

/-- The fields of the quantized `Linear` layer that
`quantized_partition_specs` reads.  `static_activation_quantization` models
the collaborator call `self._do_static_activation_quantization()`. -/
structure Linear where
  input_dims : Nat
  output_dims : Nat
  mesh_shape : Option (List Nat) := none
  wt : Option (List Int) := none
  quantization : Option Quantization := none
  static_activation_quantization : Bool := false
deriving DecidableEq

/-- `Linear._sub_channel_block_size`: the configured block size when a
quantization configuration with weight params and positive block size is
present, else `0`. -/
def Linear.sub_channel_block_size (l : Linear) : Nat :=
  match l.quantization with
  | some q =>
    match q.weight_params with
    | some wp => if 0 < wp.block_size then wp.block_size else 0
    | none => 0
  | none => 0

/-- `Linear._get_weight_hparams(using_sub_channel)`: shard-aware weight and
scale hyper-parameters.  Without sub-channel the weight is sharded along
`wt` and the scale along its second entry (when present); with sub-channel
the contract dimension is split and the sharding adjusted. -/
def Linear.get_weight_hparams (l : Linear) (using_sub_channel : Bool) :
    Except String (WeightHParams × WeightHParams) :=
  let weight_shape : List Nat := [l.input_dims, l.output_dims]
  let scale_shape : List Nat := [l.output_dims]
  let block_size := l.sub_channel_block_size
  if using_sub_channel then
    match get_sub_channel_shape weight_shape block_size 0 with
    | .error e => .error e
    | .ok ws =>
      let scale_shape2 : List Nat := [ws.getD 0 0, ws.getD 2 0]
      match l.wt with
      | some w =>
        .ok (⟨ws, l.mesh_shape, some (w.insertIdx 1 (-1))⟩,
          ⟨scale_shape2, l.mesh_shape, some w⟩)
      | none =>
        .ok (⟨ws, l.mesh_shape, none⟩, ⟨scale_shape2, l.mesh_shape, none⟩)
  else
    let scale_sharding : Option (List Int) :=
      match l.wt with
      | some w => if 1 < w.length then some [w.getD 1 0] else none
      | none => none
    .ok (⟨weight_shape, l.mesh_shape, l.wt⟩,
      ⟨scale_shape, l.mesh_shape, scale_sharding⟩)

/-- Modelled from the spec: `base_layer._weight_hparam_to_pspec` is not part
of the sources here; per the spec it turns a weight hyper-parameter
descriptor into the sharding descriptor of that artifact, so it is modelled
as carrying the descriptor over unchanged. -/
def weight_hparam_to_pspec (w : WeightHParams) : WeightHParams := w

/-- The mapping returned by `quantized_partition_specs`: partition specs for
the weight, the scale, and (for asymmetric quantization) the zero point. -/
structure PartitionSpecs where
  w : WeightHParams
  scale : WeightHParams
  zp : Option WeightHParams
deriving DecidableEq

/-- `Linear.quantized_partition_specs`: fails when no quantization
configuration is present; forces an empty replicated scale spec when
`block_size == 0`; adds a zero-point spec (a copy of the scale spec) exactly
for asymmetric configurations; fails for static activation quantization. -/
def Linear.quantized_partition_specs (l : Linear) :
    Except String PartitionSpecs :=
  match l.quantization with
  | none =>
    .error ("quantized_partition_specs is called during serving for quantized model, please set quantized config for the model.")
  | some q =>
    let block_size := l.sub_channel_block_size
    match l.get_weight_hparams (0 < block_size) with
    | .error e => .error e
    | .ok (weight_hparams, scale_hparams0) =>
      let scale_hparams :=
        if block_size = 0 then
          { scale_hparams0 with shape := [], mesh_shape := none }
        else scale_hparams0
      let weight_pspec := weight_hparam_to_pspec weight_hparams
      let scale_pspec := weight_hparam_to_pspec scale_hparams
      match q.weight_params with
      | none => .error ("AttributeError: weight_params is None")
      | some wp =>
        let zp : Option WeightHParams :=
          if wp.use_symmetric then none else some scale_pspec
        if l.static_activation_quantization then
          .error ("Static activation quantization is not supported yet.")
        else
          .ok ⟨weight_pspec, scale_pspec, zp⟩

/-! ## Lemmas about the top-k selection order -/

theorem beats_irrefl (xs : List ℚ) (i : Nat) : ¬ beats xs i i := by
  simp [beats]

theorem beats_trans {xs : List ℚ} {i j k : Nat} (h1 : beats xs i j)
    (h2 : beats xs j k) : beats xs i k := by
  rcases h1 with h1 | ⟨h1e, h1l⟩ <;> rcases h2 with h2 | ⟨h2e, h2l⟩
  · exact Or.inl (h2.trans h1)
  · exact Or.inl (h2e ▸ h1)
  · exact Or.inl (h1e ▸ h2)
  · exact Or.inr ⟨h1e.trans h2e, h1l.trans h2l⟩

theorem beats_total (xs : List ℚ) {i j : Nat} (h : i ≠ j) :
    beats xs i j ∨ beats xs j i := by
  rcases lt_trichotomy (xs.getD i 0) (xs.getD j 0) with hv | hv | hv
  · exact Or.inr (Or.inl hv)
  · rcases Nat.lt_or_ge i j with hij | hij
    · exact Or.inl (Or.inr ⟨hv, hij⟩)
    · exact Or.inr (Or.inr ⟨hv.symm, lt_of_le_of_ne hij (Ne.symm h)⟩)
  · exact Or.inl (Or.inl hv)

theorem rankOf_eq_card (xs : List ℚ) (i : Nat) :
    rankOf xs i = (beatSet xs i).card := rfl

theorem rankOf_lt_length {xs : List ℚ} {i : Nat} (hi : i < xs.length) :
    rankOf xs i < xs.length := by
  rw [rankOf_eq_card]
  have hsub : beatSet xs i ⊆ (Finset.range xs.length).erase i := by
    intro j hj
    rw [beatSet, Finset.mem_filter] at hj
    refine Finset.mem_erase.2 ⟨?_, hj.1⟩
    rintro rfl
    exact beats_irrefl xs _ hj.2
  calc (beatSet xs i).card ≤ ((Finset.range xs.length).erase i).card :=
        Finset.card_le_card hsub
    _ < (Finset.range xs.length).card :=
        Finset.card_erase_lt_of_mem (Finset.mem_range.2 hi)
    _ = xs.length := Finset.card_range _

theorem rankOf_lt_rankOf {xs : List ℚ} {i j : Nat} (hi : i < xs.length)
    (hb : beats xs i j) : rankOf xs i < rankOf xs j := by
  rw [rankOf_eq_card, rankOf_eq_card]
  have hnotmem : i ∉ beatSet xs i := by
    intro hmem
    exact beats_irrefl xs i ((Finset.mem_filter.1 hmem).2)
  have hsub : insert i (beatSet xs i) ⊆ beatSet xs j := by
    intro t ht
    rcases Finset.mem_insert.1 ht with rfl | ht
    · exact Finset.mem_filter.2 ⟨Finset.mem_range.2 hi, hb⟩
    · rw [beatSet, Finset.mem_filter] at ht ⊢
      exact ⟨ht.1, beats_trans ht.2 hb⟩
  calc (beatSet xs i).card < (insert i (beatSet xs i)).card := by
        rw [Finset.card_insert_of_not_mem hnotmem]; omega
    _ ≤ (beatSet xs j).card := Finset.card_le_card hsub

theorem rankOf_injOn (xs : List ℚ) :
    Set.InjOn (rankOf xs) (Finset.range xs.length) := by
  intro i hi j hj hij
  by_contra hne
  rcases beats_total xs hne with hb | hb
  · have := rankOf_lt_rankOf (Finset.mem_range.1 hi) hb
    omega
  · have := rankOf_lt_rankOf (Finset.mem_range.1 hj) hb
    omega

theorem image_rankOf (xs : List ℚ) :
    (Finset.range xs.length).image (rankOf xs) = Finset.range xs.length := by
  have hsub : (Finset.range xs.length).image (rankOf xs) ⊆
      Finset.range xs.length := by
    intro r hr
    rcases Finset.mem_image.1 hr with ⟨i, hi, rfl⟩
    exact Finset.mem_range.2 (rankOf_lt_length (Finset.mem_range.1 hi))
  refine Finset.eq_of_subset_of_card_le hsub ?_
  rw [Finset.card_image_of_injOn (rankOf_injOn xs), Finset.card_range]

theorem card_rank_lt (xs : List ℚ) (k : Nat) :
    ((Finset.range xs.length).filter (fun i => rankOf xs i < k)).card =
      min k xs.length := by
  have himg : ((Finset.range xs.length).filter
      (fun i => rankOf xs i < k)).image (rankOf xs) =
        (Finset.range xs.length).filter (fun r => r < k) := by
    ext r
    simp only [Finset.mem_image, Finset.mem_filter, Finset.mem_range]
    constructor
    · rintro ⟨i, ⟨hi, hk2⟩, rfl⟩
      exact ⟨rankOf_lt_length hi, hk2⟩
    · rintro ⟨hrlen, hrk⟩
      have hmem : r ∈ (Finset.range xs.length).image (rankOf xs) := by
        rw [image_rankOf]
        exact Finset.mem_range.2 hrlen
      rcases Finset.mem_image.1 hmem with ⟨i, hi, rfl⟩
      exact ⟨i, ⟨Finset.mem_range.1 hi, hrk⟩, rfl⟩
  have hcard : ((Finset.range xs.length).filter
      (fun i => rankOf xs i < k)).card =
        (((Finset.range xs.length).filter
          (fun i => rankOf xs i < k)).image (rankOf xs)).card := by
    rw [Finset.card_image_of_injOn
      ((rankOf_injOn xs).mono (by
        intro t ht
        exact (Finset.mem_filter.1 ht).1))]
  rw [hcard, himg]
  have : (Finset.range xs.length).filter (fun r => r < k) =
      Finset.range (min k xs.length) := by
    ext r
    simp [Nat.lt_min, and_comm]
  rw [this, Finset.card_range]

theorem topk_mask_length (xs : List ℚ) (k : Nat) :
    (topk_mask xs k).length = xs.length := by
  simp [topk_mask]

theorem topk_mask_getD {xs : List ℚ} {i : Nat} (hi : i < xs.length)
    (k : Nat) :
    (topk_mask xs k).getD i false = decide (rankOf xs i < k) := by
  rw [List.getD_eq_getElem _ _ (by simpa [topk_mask] using hi)]
  simp [topk_mask]

theorem topk_mask_count {xs : List ℚ} {k : Nat} (hk : k ≤ xs.length) :
    (topk_mask xs k).count true = k := by
  rw [topk_mask, List.count_eq_countP, List.countP_map]
  have : ((· == true) ∘ fun i => decide (rankOf xs i < k)) =
      (fun i => decide (rankOf xs i < k)) := by
    funext i
    simp
  rw [this, List.countP_eq_length_filter]
  have hbridge : ((List.range xs.length).filter
      (fun i => decide (rankOf xs i < k))).length =
        ((Finset.range xs.length).filter (fun i => rankOf xs i < k)).card :=
    rfl
  rw [hbridge, card_rank_lt]
  omega

theorem topk_mask_kept_beats {xs : List ℚ} {k i j : Nat}
    (hi : i < xs.length) (hj : j < xs.length)
    (hti : (topk_mask xs k).getD i false = true)
    (htj : (topk_mask xs k).getD j false = false) : beats xs i j := by
  rw [topk_mask_getD hi, decide_eq_true_eq] at hti
  rw [topk_mask_getD hj] at htj
  have hrj : ¬ rankOf xs j < k := by
    intro hcon
    simp [hcon] at htj
  have hne : i ≠ j := by
    rintro rfl
    exact hrj hti
  rcases beats_total xs hne with hb | hb
  · exact hb
  · have := rankOf_lt_rankOf hj hb
    omega

/-! ## Lemmas about grouping and flat reshaping -/

theorem groupsOf_length (d : List ℚ) (m : Nat) :
    (groupsOf d m).length = d.length / m := by
  simp [groupsOf]

theorem groupsOf_getD {d : List ℚ} {m g : Nat} (hg : g < d.length / m) :
    (groupsOf d m).getD g [] = (d.drop (g * m)).take m := by
  rw [List.getD_eq_getElem _ _ (by simpa [groupsOf] using hg)]
  simp [groupsOf]

theorem group_length {d : List ℚ} {m g : Nat} (hdvd : m ∣ d.length)
    (hg : g < d.length / m) : ((d.drop (g * m)).take m).length = m := by
  have h1 : (g + 1) * m ≤ (d.length / m) * m :=
    Nat.mul_le_mul_right m hg
  rw [Nat.div_mul_cancel hdvd] at h1
  have h2 : (g + 1) * m = g * m + m := by ring
  simp only [List.length_take, List.length_drop]
  omega

theorem flatten_drop_take {α : Type} (L : List (List α)) (m : Nat) :
    ∀ g, (∀ l ∈ L, l.length = m) → g < L.length →
      ((L.flatten).drop (g * m)).take m = L.getD g [] := by
  induction L with
  | nil => intro g _ hg; simp at hg
  | cons a L ih =>
    intro g hlen hg
    cases g with
    | zero =>
      have ha : a.length = m := hlen a (by simp)
      simp only [Nat.zero_mul, List.drop_zero, List.flatten_cons, List.getD]
      rw [List.take_left' ha]
      rfl
    | succ g =>
      have ha : a.length = m := hlen a (by simp)
      have hstep : ((g + 1) * m) = a.length + g * m := by
        rw [ha]; ring
      rw [List.flatten_cons, hstep, ← List.drop_drop, List.drop_left]
      have hL : ∀ l ∈ L, l.length = m := fun l hl => hlen l (by simp [hl])
      have hgL : g < L.length := by simpa using hg
      simpa using ih g hL hgL

theorem nm_mask_flat_length {d : List ℚ} {m : Nat} (n : Nat)
    (hdvd : m ∣ d.length) : (nm_mask_flat d n m).length = d.length := by
  rw [nm_mask_flat, List.length_flatten]
  have hmap : ((groupsOf d m).map (fun g => topk_mask g n)).map List.length =
      List.replicate (d.length / m) m := by
    rw [List.eq_replicate_iff]
    refine ⟨by simp [groupsOf_length], ?_⟩
    intro b hb
    simp only [List.map_map, List.mem_map] at hb
    rcases hb with ⟨grp, hgrp, rfl⟩
    rw [groupsOf] at hgrp
    simp only [List.mem_map, List.mem_range] at hgrp
    rcases hgrp with ⟨g, hg, rfl⟩
    simp only [Function.comp_apply, topk_mask_length]
    exact group_length hdvd hg
  rw [hmap, List.sum_replicate, smul_eq_mul, Nat.div_mul_cancel hdvd]

theorem nm_mask_flat_group {d : List ℚ} {m g : Nat} (n : Nat)
    (hdvd : m ∣ d.length) (hg : g < d.length / m) :
    ((nm_mask_flat d n m).drop (g * m)).take m =
      topk_mask ((d.drop (g * m)).take m) n := by
  rw [nm_mask_flat]
  have hall : ∀ l ∈ (groupsOf d m).map (fun grp => topk_mask grp n),
      l.length = m := by
    intro l hl
    simp only [List.mem_map] at hl
    rcases hl with ⟨grp, hgrp, rfl⟩
    rw [groupsOf] at hgrp
    simp only [List.mem_map, List.mem_range] at hgrp
    rcases hgrp with ⟨g2, hg2, rfl⟩
    rw [topk_mask_length]
    exact group_length hdvd hg2
  have hglen : g < ((groupsOf d m).map (fun grp => topk_mask grp n)).length :=
    by simpa [groupsOf_length] using hg
  rw [flatten_drop_take _ m g hall hglen]
  rw [List.getD_eq_getElem _ _ hglen]
  simp only [List.getElem_map]
  congr 1
  rw [← groupsOf_getD hg, List.getD_eq_getElem _ _ (by simpa [groupsOf_length] using hg)]

/-! ## Lemmas about the flat transpose -/

theorem transposeFlat_length {α : Type} [Inhabited α] (rows cols : Nat)
    (d : List α) : (transposeFlat rows cols d).length = cols * rows := by
  simp [transposeFlat]

theorem transposeFlat_getD {α : Type} [Inhabited α] {rows cols i : Nat}
    (d : List α) (hi : i < cols * rows) :
    (transposeFlat rows cols d).getD i default =
      d.getD ((i % rows) * cols + i / rows) default := by
  rw [List.getD_eq_getElem _ _ (by simpa [transposeFlat] using hi)]
  simp [transposeFlat]

theorem transposeFlat_invol {α : Type} [Inhabited α] {rows cols : Nat}
    {d : List α} (h : d.length = rows * cols) :
    transposeFlat cols rows (transposeFlat rows cols d) = d := by
  apply List.ext_getElem
  · rw [transposeFlat_length, h]
  intro i h1 h2
  rw [← List.getD_eq_getElem _ default h1, ← List.getD_eq_getElem _ default h2]
  have hi : i < rows * cols := by
    rw [← h]
    exact h2
  have hrows : 0 < rows := by
    rcases Nat.eq_zero_or_pos rows with h0 | h0
    · subst h0
      simp at hi
    · exact h0
  have hcols : 0 < cols := by
    rcases Nat.eq_zero_or_pos cols with h0 | h0
    · subst h0
      simp at hi
    · exact h0
  have hic : i / cols < rows := Nat.div_lt_of_lt_mul (by rw [mul_comm]; exact hi)
  have himod : i % cols < cols := Nat.mod_lt _ hcols
  have hidx : (i % cols) * rows + i / cols < cols * rows := by
    calc (i % cols) * rows + i / cols < (i % cols) * rows + rows := by omega
      _ = (i % cols + 1) * rows := by ring
      _ ≤ cols * rows := Nat.mul_le_mul_right rows (by omega)
  rw [transposeFlat_getD _ hi, transposeFlat_getD _ hidx]
  have e1 : ((i % cols) * rows + i / cols) % rows = i / cols := by
    rw [mul_comm (i % cols) rows, Nat.mul_add_mod, Nat.mod_eq_of_lt hic]
  have e2 : ((i % cols) * rows + i / cols) / rows = i % cols := by
    rw [mul_comm (i % cols) rows, Nat.mul_add_div hrows,
      Nat.div_eq_of_lt hic, Nat.add_zero]
  rw [e1, e2]
  have e3 : (i / cols) * cols + i % cols = i := by
    rw [mul_comm]
    exact Nat.div_add_mod i cols
  rw [e3]

/-- The per-group content of `nm_mask_flat`: in every group exactly `n`
positions are kept, and every kept position beats every dropped one. -/
theorem nm_flat_spec {a : List ℚ} {n m g : Nat} (hnm : n ≤ m)
    (hdvd : m ∣ a.length) (hg : g < a.length / m) :
    (((nm_mask_flat a n m).drop (g * m)).take m).count true = n ∧
    ∀ i j, i < m → j < m →
      (((nm_mask_flat a n m).drop (g * m)).take m).getD i false = true →
      (((nm_mask_flat a n m).drop (g * m)).take m).getD j false = false →
      beats ((a.drop (g * m)).take m) i j := by
  have hgrp := nm_mask_flat_group n hdvd hg
  have hlen := group_length hdvd hg
  constructor
  · rw [hgrp]
    exact topk_mask_count (by rw [hlen]; exact hnm)
  · intro i j hi hj hti htj
    rw [hgrp] at hti htj
    exact topk_mask_kept_beats (by rw [hlen]; exact hi)
      (by rw [hlen]; exact hj) hti htj

/-- C1: for every `n ≤ m` and every `rows × cols` tensor whose element
count is divisible by `m`, `get_sparsity_mask` succeeds and returns a mask
of the same shape in which, within every contiguous group of `m` elements
along the chosen order, exactly `n` positions are `true`, and every kept
position has strictly larger magnitude than every dropped one, or equal
magnitude and lower index; in particular
`get_sparsity_mask(inputs=[[4,1,3,2]], n=2, m=4, order=R)` returns
`[[True, False, True, False]]`. -/
theorem get_sparsity_mask_nm_spec :
    (∀ (rows cols n m : Nat) (order : String) (d : List ℚ),
      d.length = rows * cols → n ≤ m → 0 < m → m ∣ d.length →
      (order = "R" ∨ order = "C") →
      ∃ mask, get_sparsity_mask rows cols n m order d = Except.ok mask ∧
        mask.length = d.length ∧
        ∀ g, g < d.length / m →
          (((orderSeq order rows cols mask).drop (g * m)).take m).count true
              = n ∧
          ∀ i j, i < m → j < m →
            (((orderSeq order rows cols mask).drop (g * m)).take m).getD i
                false = true →
            (((orderSeq order rows cols mask).drop (g * m)).take m).getD j
                false = false →
            beats (((orderSeq order rows cols
              (d.map (fun x => |x|))).drop (g * m)).take m) i j) ∧
    get_sparsity_mask 1 4 2 4 "R" [(4 : ℚ), 1, 3, 2] =
      Except.ok [true, false, true, false] := by
  constructor
  · intro rows cols n m order d hd hnm hm hdvd hord
    have hmod : d.length % m = 0 := Nat.mod_eq_zero_of_dvd hdvd
    have hmne : ¬ m = 0 := by omega
    rcases hord with rfl | rfl
    · have hres : get_sparsity_mask rows cols n m "R" d =
          Except.ok (nm_mask_flat (d.map (fun x => |x|)) n m) := by
        simp [get_sparsity_mask, hnm, hmne, hmod]
      have hdvd2 : m ∣ (d.map (fun x => |x|)).length := by simpa using hdvd
      refine ⟨_, hres, ?_, ?_⟩
      · rw [nm_mask_flat_length n hdvd2, List.length_map]
      · intro g hg
        have hg2 : g < (d.map (fun x => |x|)).length / m := by simpa using hg
        have hOS : orderSeq "R" rows cols
            (nm_mask_flat (d.map (fun x => |x|)) n m) =
              nm_mask_flat (d.map (fun x => |x|)) n m := by
          simp [orderSeq]
        have hOSd : orderSeq "R" rows cols (d.map (fun x => |x|)) =
            d.map (fun x => |x|) := by
          simp [orderSeq]
        rw [hOS, hOSd]
        exact nm_flat_spec hnm hdvd2 hg2
    · have hres : get_sparsity_mask rows cols n m "C" d =
          Except.ok (transposeFlat cols rows (nm_mask_flat
            (transposeFlat rows cols (d.map (fun x => |x|))) n m)) := by
        simp [get_sparsity_mask, hnm, hmne, hmod]
      have htlen : (transposeFlat rows cols (d.map (fun x => |x|))).length =
          cols * rows := transposeFlat_length rows cols _
      have htd : (transposeFlat rows cols (d.map (fun x => |x|))).length =
          d.length := by
        rw [htlen, hd]
        exact Nat.mul_comm cols rows
      have hdvd_t : m ∣ (transposeFlat rows cols
          (d.map (fun x => |x|))).length := by
        rw [htd]
        exact hdvd
      have hnmlen : (nm_mask_flat
          (transposeFlat rows cols (d.map (fun x => |x|))) n m).length =
            cols * rows := by
        rw [nm_mask_flat_length n hdvd_t, htlen]
      refine ⟨_, hres, ?_, ?_⟩
      · rw [transposeFlat_length cols rows, hd]
      · intro g hg
        have hOS : orderSeq "C" rows cols (transposeFlat cols rows
            (nm_mask_flat (transposeFlat rows cols
              (d.map (fun x => |x|))) n m)) =
            nm_mask_flat (transposeFlat rows cols
              (d.map (fun x => |x|))) n m := by
          rw [orderSeq, if_neg (by decide)]
          exact transposeFlat_invol hnmlen
        have hOSd : orderSeq "C" rows cols (d.map (fun x => |x|)) =
            transposeFlat rows cols (d.map (fun x => |x|)) := by
          rw [orderSeq, if_neg (by decide)]
        rw [hOS, hOSd]
        have hg2 : g < (transposeFlat rows cols
            (d.map (fun x => |x|))).length / m := by
          rw [htd]
          exact hg
        exact nm_flat_spec hnm hdvd_t hg2
  · rfl

/-- Witness for C1: the scenario input `[[4,1,3,2]]` with `n=2`, `m=4`,
order R satisfies all hypotheses, and the returned mask keeps exactly two
positions. -/
theorem get_sparsity_mask_nm_spec_witness :
    (([(4 : ℚ), 1, 3, 2] : List ℚ).length = 1 * 4 ∧ 2 ≤ 4 ∧ 0 < 4 ∧
      4 ∣ ([(4 : ℚ), 1, 3, 2] : List ℚ).length) ∧
    ∃ mask, get_sparsity_mask 1 4 2 4 "R" [(4 : ℚ), 1, 3, 2] =
        Except.ok mask ∧ mask.count true = 2 := by
  refine ⟨⟨rfl, by norm_num, by norm_num, by norm_num⟩, ?_⟩
  obtain ⟨mask, hok, hlen, hg⟩ :=
    get_sparsity_mask_nm_spec.1 1 4 2 4 "R" [(4 : ℚ), 1, 3, 2] rfl
      (by norm_num) (by norm_num) (by norm_num) (Or.inl rfl)
  refine ⟨mask, hok, ?_⟩
  have h0 := (hg 0 (by norm_num)).1
  have hOS : orderSeq "R" 1 4 mask = mask := by
    simp [orderSeq]
  rw [hOS, Nat.zero_mul, List.drop_zero,
    List.take_of_length_le (by rw [hlen]; norm_num)] at h0
  exact h0

/-- C4: `get_sparsity_mask` raises a validation error when the element
count is not divisible by `m_sparsity`, raises a validation error when the
order is neither C nor R, and succeeds under `n ≤ m`, divisibility and a
supported order. -/
theorem get_sparsity_mask_validation :
    (∀ (rows cols n m : Nat) (order : String) (d : List ℚ),
      n ≤ m → 0 < m → ¬ m ∣ d.length →
      get_sparsity_mask rows cols n m order d =
        Except.error ("inputs size must be divisible by m")) ∧
    (∀ (rows cols n m : Nat) (order : String) (d : List ℚ),
      n ≤ m → 0 < m → m ∣ d.length → order ≠ "C" → order ≠ "R" →
      get_sparsity_mask rows cols n m order d =
        Except.error ("Index order not supported.")) ∧
    (∀ (rows cols n m : Nat) (order : String) (d : List ℚ),
      n ≤ m → 0 < m → m ∣ d.length → (order = "C" ∨ order = "R") →
      ∃ mask, get_sparsity_mask rows cols n m order d = Except.ok mask) := by
  refine ⟨?_, ?_, ?_⟩
  · intro rows cols n m order d hnm hm hdvd
    have hmne : ¬ m = 0 := by omega
    have hmod : ¬ d.length % m = 0 := fun h => hdvd (Nat.dvd_of_mod_eq_zero h)
    simp [get_sparsity_mask, hnm, hmne, hmod]
  · intro rows cols n m order d hnm hm hdvd hC hR
    have hmne : ¬ m = 0 := by omega
    have hmod : d.length % m = 0 := Nat.mod_eq_zero_of_dvd hdvd
    simp [get_sparsity_mask, hnm, hmne, hmod, hC, hR]
  · intro rows cols n m order d hnm hm hdvd hord
    have hmne : ¬ m = 0 := by omega
    have hmod : d.length % m = 0 := Nat.mod_eq_zero_of_dvd hdvd
    rcases hord with rfl | rfl
    · have hres : get_sparsity_mask rows cols n m "C" d =
          Except.ok (transposeFlat cols rows (nm_mask_flat
            (transposeFlat rows cols (d.map (fun x => |x|))) n m)) := by
        simp [get_sparsity_mask, hnm, hmne, hmod]
      exact ⟨_, hres⟩
    · have hres : get_sparsity_mask rows cols n m "R" d =
          Except.ok (nm_mask_flat (d.map (fun x => |x|)) n m) := by
        simp [get_sparsity_mask, hnm, hmne, hmod]
      exact ⟨_, hres⟩

/-- Witness for C4: a non-divisible input fails, an unsupported order
fails, and a well-formed call succeeds. -/
theorem get_sparsity_mask_validation_witness :
    (¬ (4 ∣ ([(1 : ℚ), 2, 3] : List ℚ).length) ∧
      get_sparsity_mask 1 3 2 4 "R" [(1 : ℚ), 2, 3] =
        Except.error ("inputs size must be divisible by m")) ∧
    get_sparsity_mask 1 4 2 4 "X" [(1 : ℚ), 2, 3, 4] =
      Except.error ("Index order not supported.") ∧
    ∃ mask, get_sparsity_mask 1 4 2 4 "C" [(1 : ℚ), 2, 3, 4] =
      Except.ok mask := by
  refine ⟨⟨by decide, ?_⟩, ?_, ?_⟩
  · exact get_sparsity_mask_validation.1 1 3 2 4 "R" [1, 2, 3]
      (by norm_num) (by norm_num) (by decide)
  · exact get_sparsity_mask_validation.2.1 1 4 2 4 "X" [1, 2, 3, 4]
      (by norm_num) (by norm_num) (by decide) (by decide) (by decide)
  · exact get_sparsity_mask_validation.2.2 1 4 2 4 "C" [1, 2, 3, 4]
      (by norm_num) (by norm_num) (by decide) (Or.inl rfl)

/-- C9: `apply_sparsity` is idempotent: applying it twice with the same
mask equals applying it once. -/
theorem apply_sparsity_idempotent :
    ∀ (inputs : List ℚ) (mask : List Bool),
      apply_sparsity (apply_sparsity inputs mask) mask =
        apply_sparsity inputs mask := by
  intro inputs mask
  induction mask generalizing inputs with
  | nil => rfl
  | cons mk mks ih =>
    cases inputs with
    | nil => rfl
    | cons x xs =>
      simp only [apply_sparsity, List.zipWith_cons_cons]
      rw [show (if mk then (if mk then x else (0 : ℚ)) else (0 : ℚ)) =
        (if mk then x else (0 : ℚ)) from by cases mk <;> simp]
      congr 1
      exact ih xs

/-- C7: for `axis < shape.length` and `0 < block_size` dividing
`shape[axis]`, the sub-channel split succeeds and returns a shape with one
more axis: a new axis of size `shape[axis] / block_size` immediately before
`axis`, `block_size` at `axis + 1`, and all other entries unchanged; it
fails with a validation error when `block_size` does not divide
`shape[axis]`. -/
theorem get_sub_channel_shape_spec :
    ∀ (shape : List Nat) (axis block_size : Nat),
      axis < shape.length → 0 < block_size →
      (¬ block_size ∣ shape.getD axis 0 →
        get_sub_channel_shape shape block_size axis =
          Except.error ("block_size must fully divide the contract dimension")) ∧
      (block_size ∣ shape.getD axis 0 →
        ∃ out, get_sub_channel_shape shape block_size axis = Except.ok out ∧
          out.length = shape.length + 1 ∧
          out.getD axis 0 = shape.getD axis 0 / block_size ∧
          out.getD (axis + 1) 0 = block_size ∧
          (∀ i, i < axis → out.getD i 0 = shape.getD i 0) ∧
          (∀ i, axis + 1 < i → i < shape.length + 1 →
            out.getD i 0 = shape.getD (i - 1) 0)) := by
  intro shape axis block_size haxis hbs
  have hbsne : ¬ block_size = 0 := by omega
  constructor
  · intro hndvd
    have hmod : ¬ shape[axis]?.getD 0 % block_size = 0 := by
      rw [← List.getD_eq_getElem?_getD]
      exact fun h => hndvd (Nat.dvd_of_mod_eq_zero h)
    simp [get_sub_channel_shape, hbsne, hmod]
  · intro hdvd
    have hmod : shape[axis]?.getD 0 % block_size = 0 := by
      rw [← List.getD_eq_getElem?_getD]
      exact Nat.mod_eq_zero_of_dvd hdvd
    have hres : get_sub_channel_shape shape block_size axis =
        Except.ok ((shape.insertIdx axis (shape.getD axis 0 / block_size)).set
          (axis + 1) block_size) := by
      simp [get_sub_channel_shape, hbsne, hmod, List.getD_eq_getElem?_getD]
    have hinslen : (shape.insertIdx axis
        (shape.getD axis 0 / block_size)).length = shape.length + 1 :=
      List.length_insertIdx _ _ (Nat.le_of_lt haxis)
    have houtlen : ((shape.insertIdx axis
        (shape.getD axis 0 / block_size)).set (axis + 1) block_size).length =
          shape.length + 1 := by
      rw [List.length_set, hinslen]
    refine ⟨_, hres, houtlen, ?_, ?_, ?_, ?_⟩
    · rw [List.getD_eq_getElem _ _ (by omega)]
      rw [List.getElem_set_ne (by omega)]
      rw [List.getElem_insertIdx_self _ _ _ (Nat.le_of_lt haxis)]
    · rw [List.getD_eq_getElem _ _ (by omega)]
      rw [List.getElem_set_self (by omega)]
    · intro i hi
      set sc := shape.getD axis 0 / block_size with hsc
      rw [List.getD_eq_getElem _ _ (by omega)]
      rw [List.getElem_set_ne (by omega)]
      rw [List.getElem_insertIdx_of_lt _ _ _ _ hi (by omega)]
      exact (List.getD_eq_getElem shape 0 (by omega)).symm
    · intro i hi1 hi2
      obtain ⟨k, rfl⟩ : ∃ k, i = axis + k + 1 := ⟨i - axis - 1, by omega⟩
      set sc := shape.getD axis 0 / block_size with hsc
      rw [List.getD_eq_getElem _ _ (by omega)]
      rw [List.getElem_set_ne (by omega)]
      rw [List.getElem_insertIdx_add_succ _ _ _ _ (by omega)]
      have hidx : axis + k + 1 - 1 = axis + k := by omega
      rw [hidx]
      exact (List.getD_eq_getElem shape 0 (by omega)).symm

/-- Witness for C7: splitting axis 0 of shape `[6, 4]` with block size 2
gives `[3, 2, 4]`, and block size 4 fails on axis 0 of `[6, 4]`. -/
theorem get_sub_channel_shape_spec_witness :
    ((0 : Nat) < 2 ∧ (0 : Nat) < ([6, 4] : List Nat).length ∧
      2 ∣ ([6, 4] : List Nat).getD 0 0) ∧
    (∃ out, get_sub_channel_shape [6, 4] 2 0 = Except.ok out ∧
      out.length = 3 ∧ out.getD 0 0 = 3 ∧ out.getD 1 0 = 2) ∧
    get_sub_channel_shape [6, 4] 4 0 =
      Except.error ("block_size must fully divide the contract dimension") := by
  refine ⟨⟨by norm_num, by norm_num, by decide⟩, ?_, ?_⟩
  · obtain ⟨out, hok, hlen, hax, hax1, -, -⟩ :=
      (get_sub_channel_shape_spec [6, 4] 0 2 (by norm_num) (by norm_num)).2
        (by decide)
    exact ⟨out, hok, hlen, hax, hax1⟩
  · exact (get_sub_channel_shape_spec [6, 4] 0 4 (by norm_num)
      (by norm_num)).1 (by decide)

/-! ## Lemmas about the percentile threshold -/

/-- For `0 ≤ q ≤ 100` and a nonempty input, the percentile is a convex
combination of two elements of the input. -/
theorem percentile_bounds (xs : List ℚ) (q : ℚ) (hq : 0 ≤ q)
    (hq' : q ≤ 100) (hne : xs ≠ []) :
    ∃ a b f, a ∈ xs ∧ b ∈ xs ∧ 0 ≤ f ∧ f < 1 ∧
      percentile xs q = (1 - f) * a + f * b := by
  set s := xs.mergeSort (fun a b => decide (a ≤ b)) with hs
  have hperm : s.Perm xs := List.mergeSort_perm xs _
  have hlen : s.length = xs.length := hperm.length_eq
  have hpos : 0 < s.length := by
    rw [hlen]
    exact List.length_pos.2 hne
  set p := q * ((s.length : ℚ) - 1) / 100 with hp
  have hlen1 : (1 : ℚ) ≤ (s.length : ℚ) := by exact_mod_cast hpos
  have hp0 : 0 ≤ p := by
    rw [hp]
    apply div_nonneg _ (by norm_num)
    apply mul_nonneg hq
    linarith
  have hple : p ≤ (s.length : ℚ) - 1 := by
    rw [hp, div_le_iff₀ (by norm_num : (0 : ℚ) < 100)]
    nlinarith
  have hfl0 : 0 ≤ ⌊p⌋ := Int.floor_nonneg.2 hp0
  set i := (⌊p⌋).toNat with hi
  have hiz : (i : ℤ) = ⌊p⌋ := by
    rw [hi]
    exact Int.toNat_of_nonneg hfl0
  have hip : (i : ℚ) ≤ p := by
    have h1 : ((i : ℤ) : ℚ) ≤ p := by
      rw [hiz]
      exact Int.floor_le p
    exact_mod_cast h1
  have hi_lt : i < s.length := by
    have h2 : (⌊p⌋ : ℚ) ≤ (s.length : ℚ) - 1 := le_trans (Int.floor_le p) hple
    have h3 : ⌊p⌋ ≤ (s.length : ℤ) - 1 := by exact_mod_cast h2
    omega
  set j := min (i + 1) (s.length - 1) with hj
  have hj_lt : j < s.length := by omega
  set f := p - (i : ℚ) with hf
  have hf0 : 0 ≤ f := by
    rw [hf]
    linarith
  have hf1 : f < 1 := by
    have h4 : p < ((i : ℤ) : ℚ) + 1 := by
      rw [hiz]
      exact Int.lt_floor_add_one p
    have h5 : p < (i : ℚ) + 1 := by exact_mod_cast h4
    rw [hf]
    linarith
  refine ⟨s.getD i 0, s.getD j 0, f, ?_, ?_, hf0, hf1, ?_⟩
  · rw [List.getD_eq_getElem _ _ hi_lt]
    exact hperm.mem_iff.1 (List.getElem_mem _)
  · rw [List.getD_eq_getElem _ _ hj_lt]
    exact hperm.mem_iff.1 (List.getElem_mem _)
  · simp only [percentile]
    rw [← hs, ← hp, ← hi, ← hj, ← hf]
    ring

/-- The percentile of a nonempty list of nonnegative values is
nonnegative. -/
theorem percentile_nonneg (xs : List ℚ) (q : ℚ) (h0 : ∀ a ∈ xs, 0 ≤ a)
    (hq : 0 ≤ q) (hq' : q ≤ 100) (hne : xs ≠ []) : 0 ≤ percentile xs q := by
  obtain ⟨a, b, f, ha, hb, hf0, hf1, heq⟩ :=
    percentile_bounds xs q hq hq' hne
  rw [heq]
  have ha0 := h0 a ha
  have hb0 := h0 b hb
  nlinarith

/-- The 0th percentile is the head of the ascending sort. -/
theorem percentile_zero (xs : List ℚ) :
    percentile xs 0 =
      (xs.mergeSort (fun a b => decide (a ≤ b))).getD 0 0 := by
  simp [percentile]

/-- The length of an unstructured mask is the length of the (zeroed)
input. -/
theorem unstructured_length (inputs : List ℚ) (mask : Option (List Bool))
    (q : ℚ) :
    (get_sparsity_mask_unstructured inputs mask q).length =
      (zeroed inputs mask).length := by
  simp [get_sparsity_mask_unstructured]

/-- Pointwise description of the unstructured mask: position `i` is kept
exactly when its absolute value strictly exceeds the percentile
threshold. -/
theorem unstructured_getD (inputs : List ℚ) (mask : Option (List Bool))
    (q : ℚ) {i : Nat} (hi : i < (zeroed inputs mask).length) :
    (get_sparsity_mask_unstructured inputs mask q).getD i false =
      decide (percentile ((zeroed inputs mask).map (fun x => |x|)) q <
        |(zeroed inputs mask).getD i 0|) := by
  simp only [get_sparsity_mask_unstructured]
  rw [List.getD_eq_getElem _ _ (by simpa using hi)]
  simp only [List.getElem_map]
  rw [List.getD_eq_getElem _ _ hi]

/-- C2: with a non-null current mask and a prune rate in `[0, 100]`, the
returned mask is a subset of the given mask: no position is `true` in the
result where the given mask is `false`. -/
theorem get_sparsity_mask_unstructured_monotone :
    ∀ (inputs : List ℚ) (mk : List Bool) (prune_rate : ℚ) (i : Nat),
      0 ≤ prune_rate → prune_rate ≤ 100 → mk.getD i false = false →
      (get_sparsity_mask_unstructured inputs (some mk)
        prune_rate).getD i false = false := by
  intro inputs mk q i hq hq' hmk
  by_cases hi : i < (zeroed inputs (some mk)).length
  · rw [unstructured_getD inputs (some mk) q hi]
    have hz : (zeroed inputs (some mk)).getD i 0 = 0 := by
      have hi2 : i < (List.zipWith (fun mk x => if mk then x else (0 : ℚ))
          mk inputs).length := hi
      show (List.zipWith (fun mk x => if mk then x else (0 : ℚ))
        mk inputs).getD i 0 = 0
      rw [List.getD_eq_getElem _ _ hi2]
      rw [List.getElem_zipWith]
      have himk : i < mk.length := by
        rw [List.length_zipWith] at hi2
        omega
      have hmk2 : mk[i] = false := by
        rw [← List.getD_eq_getElem _ false himk]
        exact hmk
      rw [hmk2]
      simp
    rw [hz]
    have hne : (zeroed inputs (some mk)).map (fun x => |x|) ≠ [] := by
      intro hcon
      rw [List.map_eq_nil_iff] at hcon
      rw [hcon] at hi
      simp at hi
    have hth : 0 ≤ percentile ((zeroed inputs (some mk)).map
        (fun x => |x|)) q := by
      apply percentile_nonneg _ _ _ hq hq' hne
      intro a ha
      rw [List.mem_map] at ha
      rcases ha with ⟨x, -, rfl⟩
      exact abs_nonneg x
    simp only [abs_zero, decide_eq_false_iff_not, not_lt]
    exact hth
  · rw [List.getD_eq_default]
    rw [unstructured_length]
    omega

/-- Witness for C2: on `[1,2,3]` with current mask `[true,false,true]` and
prune rate 50, the already-pruned position 1 stays pruned. -/
theorem get_sparsity_mask_unstructured_monotone_witness :
    ((0 : ℚ) ≤ 50 ∧ (50 : ℚ) ≤ 100 ∧
      ([true, false, true] : List Bool).getD 1 false = false) ∧
    (get_sparsity_mask_unstructured [(1 : ℚ), 2, 3]
      (some [true, false, true]) 50).getD 1 false = false := by
  refine ⟨⟨by norm_num, by norm_num, rfl⟩, ?_⟩
  exact get_sparsity_mask_unstructured_monotone [1, 2, 3]
    [true, false, true] 50 1 (by norm_num) (by norm_num) rfl

/-- C3: the unstructured mask (after zeroing already-pruned positions when
a current mask is given) marks `true` exactly the positions whose absolute
value is strictly greater than the `prune_rate`-th percentile of the
absolute values; in particular on `[1,2,3,4,5]` with rate 60 it keeps
exactly the values strictly above the 60th percentile `17/5`. -/
theorem get_sparsity_mask_unstructured_percentile :
    (∀ (inputs : List ℚ) (mask : Option (List Bool)) (q : ℚ),
      (get_sparsity_mask_unstructured inputs mask q).length =
        (zeroed inputs mask).length ∧
      ∀ i, i < (zeroed inputs mask).length →
        (get_sparsity_mask_unstructured inputs mask q).getD i false =
          decide (percentile ((zeroed inputs mask).map (fun x => |x|)) q <
            |(zeroed inputs mask).getD i 0|)) ∧
    get_sparsity_mask_unstructured [(1 : ℚ), 2, 3, 4, 5] none 60 =
      [false, false, false, true, true] ∧
    percentile (([(1 : ℚ), 2, 3, 4, 5] : List ℚ).map (fun x => |x|)) 60 =
      17 / 5 := by
  have habs : ([(1 : ℚ), 2, 3, 4, 5] : List ℚ).map (fun x => |x|) =
      [1, 2, 3, 4, 5] := by
    norm_num
  have hperc : percentile ([(1 : ℚ), 2, 3, 4, 5] : List ℚ) 60 = 17 / 5 := by
    unfold percentile
    rw [List.mergeSort_of_sorted (by decide)]
    norm_num
    simp only [show Int.toNat 2 = 2 from rfl]
    norm_num
  refine ⟨?_, ?_, ?_⟩
  · intro inputs mask q
    exact ⟨unstructured_length inputs mask q,
      fun i hi => unstructured_getD inputs mask q hi⟩
  · show ([(1 : ℚ), 2, 3, 4, 5].map (fun x => |x|)).map
        (fun a => decide (percentile
          ([(1 : ℚ), 2, 3, 4, 5].map (fun x => |x|)) 60 < a)) =
      [false, false, false, true, true]
    rw [habs, hperc]
    norm_num
  · rw [habs, hperc]

/-- Witness for C3: at position 3 of `[1,2,3,4,5]` with rate 60, the mask
value is exactly the strict percentile comparison. -/
theorem get_sparsity_mask_unstructured_percentile_witness :
    ((3 : Nat) < (zeroed [(1 : ℚ), 2, 3, 4, 5] none).length) ∧
    (get_sparsity_mask_unstructured [(1 : ℚ), 2, 3, 4, 5] none 60).getD 3
        false =
      decide (percentile ((zeroed [(1 : ℚ), 2, 3, 4, 5] none).map
          (fun x => |x|)) 60 <
        |(zeroed [(1 : ℚ), 2, 3, 4, 5] none).getD 3 0|) := by
  refine ⟨by norm_num [zeroed], ?_⟩
  exact (get_sparsity_mask_unstructured_percentile.1
    [(1 : ℚ), 2, 3, 4, 5] none 60).2 3 (by norm_num [zeroed])

/-- C10: the keep test is strict, so a position whose absolute value equals
the threshold is pruned; with rate 0 and no mask every position attaining
the minimum absolute value is pruned; and on a constant tensor the mask is
all-`false` for every rate in `[0, 100]`. -/
theorem get_sparsity_mask_unstructured_strict :
    (∀ (inputs : List ℚ) (mask : Option (List Bool)) (q : ℚ) (i : Nat),
      |(zeroed inputs mask).getD i 0| =
        percentile ((zeroed inputs mask).map (fun x => |x|)) q →
      (get_sparsity_mask_unstructured inputs mask q).getD i false = false) ∧
    (∀ (inputs : List ℚ) (i : Nat), i < inputs.length →
      (∀ j, j < inputs.length →
        |inputs.getD i 0| ≤ |inputs.getD j 0|) →
      (get_sparsity_mask_unstructured inputs none 0).getD i false = false) ∧
    (∀ (inputs : List ℚ) (c : ℚ) (q : ℚ), (∀ a ∈ inputs, a = c) →
      0 ≤ q → q ≤ 100 → ∀ i : Nat,
      (get_sparsity_mask_unstructured inputs none q).getD i false = false) := by
  refine ⟨?_, ?_, ?_⟩
  · intro inputs mask q i heq
    by_cases hi : i < (zeroed inputs mask).length
    · rw [unstructured_getD inputs mask q hi, ← heq]
      simp
    · rw [List.getD_eq_default]
      rw [unstructured_length]
      omega
  · intro inputs i hi hmin
    have hi2 : i < (zeroed inputs none).length := hi
    rw [unstructured_getD inputs none 0 hi2]
    have hz : zeroed inputs none = inputs := rfl
    rw [hz]
    have hlen : ((inputs.map (fun x => |x|)).mergeSort
        (fun a b => decide (a ≤ b))).length = inputs.length := by
      rw [(List.mergeSort_perm _ _).length_eq, List.length_map]
    have hth : percentile (inputs.map (fun x => |x|)) 0 =
        ((inputs.map (fun x => |x|)).mergeSort
          (fun a b => decide (a ≤ b))).getD 0 0 := percentile_zero _
    have hmem : ((inputs.map (fun x => |x|)).mergeSort
        (fun a b => decide (a ≤ b))).getD 0 0 ∈
          inputs.map (fun x => |x|) := by
      rw [List.getD_eq_getElem _ _ (by omega)]
      exact (List.mergeSort_perm _ _).mem_iff.1 (List.getElem_mem _)
    rw [List.mem_map] at hmem
    rcases hmem with ⟨x, hx, hxe⟩
    rcases List.mem_iff_getElem.1 hx with ⟨n, hn, rfl⟩
    have hle : |inputs.getD i 0| ≤ ((inputs.map (fun x => |x|)).mergeSort
        (fun a b => decide (a ≤ b))).getD 0 0 := by
      rw [← hxe, ← List.getD_eq_getElem _ 0 hn]
      exact hmin n hn
    rw [hth]
    simp only [decide_eq_false_iff_not, not_lt]
    exact hle
  · intro inputs c q hconst hq hq' i
    by_cases hi : i < (zeroed inputs none).length
    · rw [unstructured_getD inputs none q hi]
      have hz : zeroed inputs none = inputs := rfl
      rw [hz] at hi ⊢
      have hne : inputs.map (fun x => |x|) ≠ [] := by
        intro hcon
        rw [List.map_eq_nil_iff] at hcon
        rw [hcon] at hi
        simp at hi
      obtain ⟨a, b, f, ha, hb, hf0, hf1, heq⟩ :=
        percentile_bounds (inputs.map (fun x => |x|)) q hq hq' hne
      have hac : a = |c| := by
        rw [List.mem_map] at ha
        rcases ha with ⟨x, hx, rfl⟩
        rw [hconst x hx]
      have hbc : b = |c| := by
        rw [List.mem_map] at hb
        rcases hb with ⟨x, hx, rfl⟩
        rw [hconst x hx]
      have hth : percentile (inputs.map (fun x => |x|)) q = |c| := by
        rw [heq, hac, hbc]
        ring
      have hxc : |inputs.getD i 0| = |c| := by
        rw [List.getD_eq_getElem _ _ hi]
        rw [hconst _ (List.getElem_mem _)]
      rw [hth, hxc]
      simp
    · rw [List.getD_eq_default]
      rw [unstructured_length]
      omega

/-- Witness for C10: on the constant tensor `[2,2,2]` with rate 50 every
position is pruned; on `[2,1,3]` with rate 0 the minimum position 1 is
pruned. -/
theorem get_sparsity_mask_unstructured_strict_witness :
    ((get_sparsity_mask_unstructured [(2 : ℚ), 2, 2] none 50).getD 0 false
        = false) ∧
    (get_sparsity_mask_unstructured [(2 : ℚ), 1, 3] none 0).getD 1 false
        = false := by
  constructor
  · exact get_sparsity_mask_unstructured_strict.2.2 [2, 2, 2] 2 50
      (by intro a ha; simpa using ha) (by norm_num) (by norm_num) 0
  · refine get_sparsity_mask_unstructured_strict.2.1 [2, 1, 3] 1
      (by norm_num) ?_
    intro j hj
    simp only [List.length_cons, List.length_nil] at hj
    interval_cases j <;> norm_num

/-- C5: `compute_score` with the activation-weighted score succeeds exactly
when the weight is 2-D and the last axis of the activation equals the first
axis of the weight (and an activation is given); on success it returns the
einsum `...j,jk->jk` of the absolute values, a score of the same shape as
the weight. -/
theorem compute_score_activation_weighted_spec :
    (∀ w x : Tensor,
      (compute_score w SparsityScore.activation_weighted (some x)).isOk =
          true ↔
        (w.shape.length = 2 ∧
          x.shape.getD (x.shape.length - 1) 0 = w.shape.getD 0 0)) ∧
    (∀ w : Tensor,
      compute_score w SparsityScore.activation_weighted none =
        Except.error ("inputs must be given for ACTIVATION_WEIGHTED.")) ∧
    (∀ w x : Tensor, w.shape.length = 2 →
      x.shape.getD (x.shape.length - 1) 0 = w.shape.getD 0 0 →
      ∃ out, compute_score w SparsityScore.activation_weighted (some x) =
          Except.ok out ∧
        out.shape = w.shape ∧
        out.data.length = w.shape.getD 0 0 * w.shape.getD 1 0 ∧
        ∀ j k, j < w.shape.getD 0 0 → k < w.shape.getD 1 0 →
          out.data.getD (j * w.shape.getD 1 0 + k) 0 =
            (((List.range (x.data.length / w.shape.getD 0 0)).map
              (fun t => |x.data.getD (t * w.shape.getD 0 0 + j) 0|)).sum) *
              |w.data.getD (j * w.shape.getD 1 0 + k) 0|) := by
  refine ⟨?_, ?_, ?_⟩
  · intro w x
    show (score_activation_weighted w x).isOk = true ↔ _
    unfold score_activation_weighted
    split_ifs with h
    · exact ⟨fun _ => h, fun _ => rfl⟩
    · refine ⟨fun hc => ?_, fun hcond => absurd hcond h⟩
      simp [Except.isOk, Except.toBool] at hc
  · intro w
    rfl
  · intro w x h2 hlast
    have hcond : w.shape.length = 2 ∧
        x.shape.getD (x.shape.length - 1) 0 = w.shape.getD 0 0 :=
      ⟨h2, hlast⟩
    have hres : compute_score w SparsityScore.activation_weighted (some x) =
        Except.ok ⟨w.shape,
          (List.range (w.shape.getD 0 0 * w.shape.getD 1 0)).map (fun idx =>
            (((List.range (x.data.length / w.shape.getD 0 0)).map
              (fun t => |x.data.getD (t * w.shape.getD 0 0 +
                idx / w.shape.getD 1 0) 0|)).sum) *
              |w.data.getD idx 0|)⟩ := by
      show score_activation_weighted w x = _
      unfold score_activation_weighted
      rw [if_pos hcond]
    refine ⟨_, hres, rfl, by simp, ?_⟩
    intro j k hj hk
    have hcout : 0 < w.shape.getD 1 0 := by omega
    have hidx : j * w.shape.getD 1 0 + k <
        w.shape.getD 0 0 * w.shape.getD 1 0 := by
      have h5 : (j + 1) * w.shape.getD 1 0 ≤
          w.shape.getD 0 0 * w.shape.getD 1 0 :=
        Nat.mul_le_mul_right _ (by omega)
      have h6 : (j + 1) * w.shape.getD 1 0 =
          j * w.shape.getD 1 0 + w.shape.getD 1 0 := by ring
      omega
    rw [List.getD_eq_getElem _ _ (by simpa using hidx)]
    simp only [List.getElem_map, List.getElem_range]
    have hdiv : (j * w.shape.getD 1 0 + k) / w.shape.getD 1 0 = j := by
      rw [mul_comm j (w.shape.getD 1 0), Nat.mul_add_div hcout,
        Nat.div_eq_of_lt hk, Nat.add_zero]
    rw [hdiv]

/-- Witness for C5: a 2-D weight `[[1,2],[3,4]]` with activation `[[5,6]]`
satisfies the shape conditions, and the score entry `(0,1)` is
`|5| * |2| = 10`. -/
theorem compute_score_activation_weighted_spec_witness :
    ((⟨[2, 2], [1, 2, 3, 4]⟩ : Tensor).shape.length = 2 ∧
      (⟨[1, 2], [5, 6]⟩ : Tensor).shape.getD
          ((⟨[1, 2], [5, 6]⟩ : Tensor).shape.length - 1) 0 =
        (⟨[2, 2], [1, 2, 3, 4]⟩ : Tensor).shape.getD 0 0) ∧
    (compute_score ⟨[2, 2], [1, 2, 3, 4]⟩ SparsityScore.activation_weighted
      none).isOk = false ∧
    ∃ out, compute_score ⟨[2, 2], [1, 2, 3, 4]⟩
        SparsityScore.activation_weighted (some ⟨[1, 2], [5, 6]⟩) =
          Except.ok out ∧
      out.shape = [2, 2] ∧ out.data.getD 1 0 = 10 := by
  refine ⟨⟨rfl, rfl⟩, ?_, ?_⟩
  · rw [compute_score_activation_weighted_spec.2.1]
    rfl
  · obtain ⟨out, hok, hshape, hlen, hpt⟩ :=
      compute_score_activation_weighted_spec.2.2 ⟨[2, 2], [1, 2, 3, 4]⟩
        ⟨[1, 2], [5, 6]⟩ rfl rfl
    refine ⟨out, hok, hshape, ?_⟩
    have h01 := hpt 0 1 (by norm_num) (by norm_num)
    exact h01.trans (by show (List.map (fun t => |([5, 6] : List ℚ).getD (t * 2 + 0) 0|) (List.range 1)).sum * |([1, 2, 3, 4] : List ℚ).getD (0 * 2 + 1) 0| = 10; norm_num [List.range_succ, List.getD])

/-- C6: construction-time validation of the sparsity parameters: SR-STE
with a nonzero mask decay weight fails, SR-STE with structure decay fails,
SR-STE with a non-structured sparsity type fails, a non-`None` prune rate
whose type does not match the sparsity type fails, and (with weight params
present) an order outside C and R fails. -/
theorem sparsity_params_validation :
    (∀ p : WeightSparsityParams, p.sparse_ste = true →
      p.mask_decay_weight ≠ 0 → ∃ e, p.post_init = Except.error e) ∧
    (∀ p : WeightSparsityParams, p.sparse_ste = true →
      p.structure_decay = true → ∃ e, p.post_init = Except.error e) ∧
    (∀ (h : SparsityHParams) (wp : WeightSparsityParams),
      h.weight_params = some wp → wp.sparse_ste = true →
      h.sparsity_type ≠ SparsityType.structured_nm →
      ∃ e, h.post_init = Except.error e) ∧
    (∀ (h : SparsityHParams) (wp : WeightSparsityParams) (pr : PruneRate),
      h.weight_params = some wp → wp.prune_rate = some pr →
      ((h.sparsity_type = SparsityType.structured_nm ∧
          pr.isTuple = false) ∨
        (h.sparsity_type ≠ SparsityType.structured_nm ∧
          pr.isFloat = false)) →
      ∃ e, h.post_init = Except.error e) ∧
    (∀ (h : SparsityHParams) (wp : WeightSparsityParams),
      h.weight_params = some wp → h.order ≠ "C" → h.order ≠ "R" →
      ∃ e, h.post_init = Except.error e) := by
  refine ⟨?_, ?_, ?_, ?_, ?_⟩
  · intro p hste hmdw
    unfold WeightSparsityParams.post_init
    split_ifs <;> exact ⟨_, rfl⟩
  · intro p hste hsd
    unfold WeightSparsityParams.post_init
    split_ifs <;> exact ⟨_, rfl⟩
  · intro h wp hwp hste hnst
    have htc : ∃ e, h.type_check wp = Except.error e := by
      unfold SparsityHParams.type_check
      cases hst2 : h.sparsity_type with
      | structured_nm => exact absurd hst2 hnst
      | unstructured =>
        cases hpr : wp.prune_rate with
        | none =>
          exact ⟨"SR-STE only works with structured sparsity.",
            by simp [hste]⟩
        | some pr =>
          cases hf : pr.isFloat
          · exact ⟨"Prune rate must be either None or float for unstructured sparsity.",
              by simp [hf]⟩
          · exact ⟨"SR-STE only works with structured sparsity.",
              by simp [hf, hste]⟩
      | channelwise_pruning =>
        cases hpr : wp.prune_rate with
        | none =>
          exact ⟨"SR-STE only works with structured sparsity.",
            by simp [hste]⟩
        | some pr =>
          cases hf : pr.isFloat
          · exact ⟨"Prune rate must be either None or float for unstructured sparsity.",
              by simp [hf]⟩
          · exact ⟨"SR-STE only works with structured sparsity.",
              by simp [hf, hste]⟩
    obtain ⟨e, he⟩ := htc
    refine ⟨e, ?_⟩
    unfold SparsityHParams.post_init
    rw [hwp]
    simp only [he]
  · intro h wp pr hwp hpr hmis
    have htc : ∃ e, h.type_check wp = Except.error e := by
      unfold SparsityHParams.type_check
      rcases hmis with ⟨hst2, htup⟩ | ⟨hnst, hflt⟩
      · rw [hst2]
        exact ⟨"Prune rate must be either None for no pruning or a Tuple for N:M structured sparsity.",
          by simp [hpr, htup]⟩
      · cases hst2 : h.sparsity_type with
        | structured_nm => exact absurd hst2 hnst
        | unstructured =>
          exact ⟨"Prune rate must be either None or float for unstructured sparsity.",
            by simp [hpr, hflt]⟩
        | channelwise_pruning =>
          exact ⟨"Prune rate must be either None or float for unstructured sparsity.",
            by simp [hpr, hflt]⟩
    obtain ⟨e, he⟩ := htc
    refine ⟨e, ?_⟩
    unfold SparsityHParams.post_init
    rw [hwp]
    simp only [he]
  · intro h wp hwp hC hR
    cases htc : h.type_check wp with
    | error e =>
      refine ⟨e, ?_⟩
      unfold SparsityHParams.post_init
      rw [hwp]
      simp only [htc]
    | ok u =>
      refine ⟨"Index order not supported.", ?_⟩
      unfold SparsityHParams.post_init
      rw [hwp]
      simp only [htc]
      simp [hC, hR]

/-- Witness for C6: concrete contradictory configurations all fail at
construction. -/
theorem sparsity_params_validation_witness :
    (∃ e, (⟨some (.tupleRate 2 4), false, 1, true, 2 / 10000⟩ :
      WeightSparsityParams).post_init = Except.error e) ∧
    (∃ e, (⟨none, true, 0, true, 2 / 10000⟩ :
      WeightSparsityParams).post_init = Except.error e) ∧
    (∃ e, (⟨SparsityType.unstructured,
      some ⟨none, false, 0, true, 2 / 10000⟩, "R"⟩ :
        SparsityHParams).post_init = Except.error e) ∧
    (∃ e, (⟨SparsityType.structured_nm,
      some ⟨some (.floatRate 50), false, 0, false, 2 / 10000⟩, "R"⟩ :
        SparsityHParams).post_init = Except.error e) ∧
    (∃ e, (⟨SparsityType.structured_nm,
      some ⟨none, false, 0, false, 2 / 10000⟩, "X"⟩ :
        SparsityHParams).post_init = Except.error e) := by
  refine ⟨?_, ?_, ?_, ?_, ?_⟩
  · exact sparsity_params_validation.1 _ rfl (by norm_num)
  · exact sparsity_params_validation.2.1 _ rfl rfl
  · exact sparsity_params_validation.2.2.1 _
      ⟨none, false, 0, true, 2 / 10000⟩ rfl rfl (by decide)
  · exact sparsity_params_validation.2.2.2.1 _
      ⟨some (.floatRate 50), false, 0, false, 2 / 10000⟩ (.floatRate 50)
      rfl rfl (Or.inl ⟨rfl, rfl⟩)
  · exact sparsity_params_validation.2.2.2.2 _
      ⟨none, false, 0, false, 2 / 10000⟩ rfl (by decide) (by decide)

/-- Reduction of `quantized_partition_specs` once the weight hyper-params
computation succeeds. -/
theorem quantized_partition_specs_eq (l : Linear) (q : Quantization)
    (wp : QuantWeightParams) (whp shp : WeightHParams)
    (hq : l.quantization = some q) (hwp : q.weight_params = some wp)
    (hst : l.static_activation_quantization = false)
    (hgw : l.get_weight_hparams (0 < l.sub_channel_block_size) =
      Except.ok (whp, shp)) :
    l.quantized_partition_specs = Except.ok
      ⟨weight_hparam_to_pspec whp,
        weight_hparam_to_pspec (if l.sub_channel_block_size = 0 then
          { shp with shape := [], mesh_shape := none } else shp),
        if wp.use_symmetric then none
        else some (weight_hparam_to_pspec
          (if l.sub_channel_block_size = 0 then
            { shp with shape := [], mesh_shape := none } else shp))⟩ := by
  unfold Linear.quantized_partition_specs
  simp only [hq, hgw, hwp, hst]
  rfl

/-- C8: `quantized_partition_specs` fails without a quantization
configuration; with `block_size = 0` it returns a replicated (empty-shape,
no-mesh) partition spec for the scale; and the returned mapping has a
zero-point entry, equal to a copy of the scale spec, exactly when the
configuration is asymmetric. -/
theorem quantized_partition_specs_spec :
    (∀ l : Linear, l.quantization = none →
      ∃ e, l.quantized_partition_specs = Except.error e) ∧
    (∀ (l : Linear) (q : Quantization) (wp : QuantWeightParams),
      l.quantization = some q → q.weight_params = some wp →
      l.static_activation_quantization = false →
      l.sub_channel_block_size = 0 →
      ∃ specs, l.quantized_partition_specs = Except.ok specs ∧
        specs.scale.shape = [] ∧ specs.scale.mesh_shape = none) ∧
    (∀ (l : Linear) (q : Quantization) (wp : QuantWeightParams),
      l.quantization = some q → q.weight_params = some wp →
      l.static_activation_quantization = false →
      (l.sub_channel_block_size = 0 ∨
        l.sub_channel_block_size ∣ l.input_dims) →
      ∃ specs, l.quantized_partition_specs = Except.ok specs ∧
        (specs.zp = none ↔ wp.use_symmetric = true) ∧
        (∀ z, specs.zp = some z → z = specs.scale)) := by
  have hgw0 : ∀ l : Linear, l.sub_channel_block_size = 0 →
      ∃ whp shp, l.get_weight_hparams (0 < l.sub_channel_block_size) =
        Except.ok (whp, shp) := by
    intro l hbs0
    rw [hbs0]
    exact ⟨_, _, rfl⟩
  have hgwd : ∀ l : Linear, l.sub_channel_block_size ≠ 0 →
      l.sub_channel_block_size ∣ l.input_dims →
      ∃ whp shp, l.get_weight_hparams (0 < l.sub_channel_block_size) =
        Except.ok (whp, shp) := by
    intro l hbs0 hdvd
    have hbsp : 0 < l.sub_channel_block_size := Nat.pos_of_ne_zero hbs0
    have hd : decide (0 < l.sub_channel_block_size) = true :=
      decide_eq_true hbsp
    have hmod : ([l.input_dims, l.output_dims] : List Nat).getD 0 0 %
        l.sub_channel_block_size = 0 := Nat.mod_eq_zero_of_dvd hdvd
    have hscs : get_sub_channel_shape [l.input_dims, l.output_dims]
        l.sub_channel_block_size 0 = Except.ok
          ((([l.input_dims, l.output_dims] : List Nat).insertIdx 0
            (([l.input_dims, l.output_dims] : List Nat).getD 0 0 /
              l.sub_channel_block_size)).set 1
                l.sub_channel_block_size) := by
      unfold get_sub_channel_shape
      rw [if_neg hbs0, if_neg (not_not_intro hmod)]
    unfold Linear.get_weight_hparams
    rw [hd]
    simp only [if_true, hscs]
    cases hwt : l.wt with
    | some w => exact ⟨_, _, rfl⟩
    | none => exact ⟨_, _, rfl⟩
  refine ⟨?_, ?_, ?_⟩
  · intro l hq
    refine ⟨"quantized_partition_specs is called during serving for quantized model, please set quantized config for the model.", ?_⟩
    unfold Linear.quantized_partition_specs
    simp only [hq]
  · intro l q wp hq hwp hst hbs0
    obtain ⟨whp, shp, hgw⟩ := hgw0 l hbs0
    have hres := quantized_partition_specs_eq l q wp whp shp hq hwp hst hgw
    rw [hbs0] at hres
    simp only [if_pos rfl] at hres
    exact ⟨_, hres, rfl, rfl⟩
  · intro l q wp hq hwp hst hbs
    have hgw : ∃ whp shp,
        l.get_weight_hparams (0 < l.sub_channel_block_size) =
          Except.ok (whp, shp) := by
      by_cases hbs0 : l.sub_channel_block_size = 0
      · exact hgw0 l hbs0
      · rcases hbs with hbs0c | hdvd
        · exact absurd hbs0c hbs0
        · exact hgwd l hbs0 hdvd
    obtain ⟨whp, shp, hgwe⟩ := hgw
    have hres := quantized_partition_specs_eq l q wp whp shp hq hwp hst hgwe
    refine ⟨_, hres, ?_, ?_⟩
    · cases hsym : wp.use_symmetric <;> simp [hsym]
    · intro z hz
      cases hsym : wp.use_symmetric
      · rw [hsym] at hz
        simp only [Bool.false_eq_true, if_false] at hz
        exact (Option.some.inj hz).symm
      · rw [hsym] at hz
        simp at hz

/-- Witness for C8: a concrete layer without quantization fails; one with
block size 0 gets a replicated scale spec; an asymmetric one gets a zero
point equal to the scale spec. -/
theorem quantized_partition_specs_spec_witness :
    (∃ e, (⟨4, 2, none, none, none, false⟩ :
      Linear).quantized_partition_specs = Except.error e) ∧
    (∃ specs, (⟨4, 2, none, none, some ⟨some ⟨0, true⟩⟩, false⟩ :
      Linear).quantized_partition_specs = Except.ok specs ∧
        specs.scale.shape = [] ∧ specs.scale.mesh_shape = none) ∧
    ∃ specs, (⟨4, 2, none, none, some ⟨some ⟨2, false⟩⟩, false⟩ :
      Linear).quantized_partition_specs = Except.ok specs ∧
        (specs.zp = none ↔ false = true) ∧
        (∀ z, specs.zp = some z → z = specs.scale) := by
  refine ⟨?_, ?_, ?_⟩
  · exact quantized_partition_specs_spec.1 _ rfl
  · exact quantized_partition_specs_spec.2.1 _ ⟨some ⟨0, true⟩⟩
      ⟨0, true⟩ rfl rfl rfl rfl
  · exact quantized_partition_specs_spec.2.2 _ ⟨some ⟨2, false⟩⟩
      ⟨2, false⟩ rfl rfl rfl (Or.inr (by decide))

end Praxis
